import Mathlib

/-!
# Verification of the training_dataprep cleaning & imputation core

Shallow embedding of the cleaning pipeline (`src/clean_data.py` — hourly mode,
`src_daily/clean_data.py` — daily mode) and of the imputation engine
(`src_daily/impute.py`), together with proofs of the frozen claims about them.

Modelling conventions:
* pandas timestamps are integers (an abstract unit finer than the grid step,
  e.g. minutes); the grid step is an explicit positive integer `step`
  (60 for hourly `freq="H"` if the unit is minutes, etc.).
* pandas numeric values are rationals; a missing value (`NaN`) is `none`.
* a DataFrame is a list of rows; the positional index of a grid row is
  carried explicitly as the first component of a pair.
* `rolling(window = w+1, center = False, min_periods = 1).sum()` over a 0/1
  indicator at position `i` is the count over the slice of the last `w+1`
  entries ending at `i` (fewer at the start of the series).
-/

namespace TDP

/-- One raw measurement row, as handed to `CleanData.run`
(`SiteId`, `Starting`, `PPM3`, `Count`). `ppm3 = none` models a NaN reading. -/
structure Raw where
  siteId : ℕ
  starting : ℤ
  ppm3 : Option ℚ
  cnt : Option ℚ
  deriving DecidableEq, Repr

/-- One row of the regular per-site grid produced by `station_fill`:
`SiteId`/measurement columns are `none` on grid slots with no raw match. -/
structure GridRow where
  starting : ℤ
  siteId : Option ℕ
  ppm3 : Option ℚ
  cnt : Option ℚ
  deriving DecidableEq, Repr

instance : Inhabited GridRow := ⟨⟨0, none, none, none⟩⟩

instance {ε α : Type} [DecidableEq ε] [DecidableEq α] : DecidableEq (Except ε α) :=
  fun a b =>
    match a, b with
    | .error e, .error e' =>
      if h : e = e' then .isTrue (by rw [h]) else .isFalse (by simp [h])
    | .error _, .ok _ => .isFalse (by simp)
    | .ok _, .error _ => .isFalse (by simp)
    | .ok x, .ok y =>
      if h : x = y then .isTrue (by rw [h]) else .isFalse (by simp [h])

/-- One row of the cleaned output of `clean_station`:
`SiteId` has been repaired (filled), `Date` stamped from the index. -/
structure CleanRow where
  siteId : ℕ
  date : ℤ
  ppm3 : Option ℚ
  cnt : Option ℚ
  deriving DecidableEq, Repr

/-! ## load_data (`CleanData.load_data`, both modes) -/

/-- The boolean the load-time filter keeps a row by:
`(PPM3 >= 0) | (PPM3.isna())` — for a NaN both comparisons are false and
`isna` is true, so NaNs are kept. -/
def keepRow (r : Raw) : Bool :=
  match r.ppm3 with
  | none => true
  | some v => decide (0 ≤ v)

/-- Code: `category_df[(category_df["PPM3"] >= 0) | (category_df["PPM3"].isna())]`. -/
def negFilter (cat : List Raw) : List Raw := cat.filter keepRow

/-- Code: `category_df[category_df["SiteId"] == site_id]` (order preserved). -/
def siteRows (cat : List Raw) (s : ℕ) : List Raw :=
  cat.filter (fun r => r.siteId == s)

/-- Code: `pd.concat(filtered_rows)`: the per-site subsets of the negative-filtered
table, concatenated in the order the sites appear in `sites_df["Id"]`
(empty subsets are skipped by the `len(subset) > 0` guard, which does not
change the concatenation). -/
def resultDf (sites : List ℕ) (cat : List Raw) : List Raw :=
  sites.flatMap (fun s => siteRows (negFilter cat) s)

/-- Insert into a sorted list, before the first element it is `le`-below
(stable insertion). -/
def insertLe {α : Type} (le : α → α → Bool) (a : α) : List α → List α
  | [] => [a]
  | b :: bs => if le a b then a :: b :: bs else b :: insertLe le a bs

/-- Stable insertion sort (used to model both the ascending `groupby` key
order and `sort_values(by="Starting")`; no claim depends on the order of
equal keys, so stable sorting is a faithful model). -/
def insSort {α : Type} (le : α → α → Bool) : List α → List α
  | [] => []
  | a :: as => insertLe le a (insSort le as)

/-- Code: `groupby` lists its group keys in ascending order. -/
def sortKeys (l : List ℕ) : List ℕ := insSort (fun a b => a ≤ b) l

/-- Code: `list(self.grouped.groups.keys())`: the distinct `SiteId`s present in
`result_df`, in ascending order. -/
def allGroups (sites : List ℕ) (cat : List Raw) : List ℕ :=
  sortKeys ((resultDf sites cat).map (fun r => r.siteId)).dedup

/-- Code: `self.grouped.get_group(group)`: the rows of one site, in `result_df`
order. -/
def getGroup (sites : List ℕ) (cat : List Raw) (g : ℕ) : List Raw :=
  (resultDf sites cat).filter (fun r => r.siteId == g)

/-- Code: `df.sort_values(by="Starting")`. -/
def sortStart (l : List Raw) : List Raw :=
  insSort (fun a b => a.starting ≤ b.starting) l

/-- Code: `self.valid_sites`: the groups whose (sorted) site table has strictly
more rows than `samples_per_site`. -/
def validSites (sites : List ℕ) (cat : List Raw) (spc : ℕ) : List ℕ :=
  (allGroups sites cat).filter
    (fun g => spc < (sortStart (getGroup sites cat g)).length)

/-! ## station_fill (`CleanData.station_fill`, both modes)

The hourly file uses `pd.date_range(start, end, freq="H")`, the daily file
`freq="D"`; both are `dateRange lo hi step` for the respective step. -/

/-- Smallest `Starting` of a nonempty site table (`df["Starting"].min()`). -/
def minStart : List Raw → ℤ
  | [] => 0
  | r :: rs => rs.foldl (fun a x => min a x.starting) r.starting

/-- Largest `Starting` of a nonempty site table (`df["Starting"].max()`). -/
def maxStart : List Raw → ℤ
  | [] => 0
  | r :: rs => rs.foldl (fun a x => max a x.starting) r.starting

/-- Code: `pd.date_range(lo, hi, freq=step)`: `lo, lo+step, …` up to the last
point `≤ hi`; `hi` itself appears only when `hi - lo` is a multiple of
`step`. -/
def dateRange (lo hi : ℤ) (step : ℤ) : List ℤ :=
  (List.range ((hi - lo).toNat / step.toNat + 1)).map
    (fun k : ℕ => lo + (k : ℤ) * step)

/-- Code: `all_hours.merge(df, on="Starting", how="left")`: every grid timestamp
keeps all raw rows matching it exactly (several if the timestamp is
duplicated), or a single all-NaN row when none matches. -/
def mergeLeft (g : List Raw) (grid : List ℤ) : List GridRow :=
  grid.flatMap (fun t =>
    match g.filter (fun r => r.starting == t) with
    | [] => [⟨t, none, none, none⟩]
    | ms => ms.map (fun r => ⟨t, some r.siteId, r.ppm3, r.cnt⟩))

/-- Code: `CleanData.station_fill`: sort one site's rows by `Starting`, build the
full grid between the endpoints, left-join the rows onto it. -/
def stationFill (rows : List Raw) (step : ℤ) : List GridRow :=
  let g := sortStart rows
  mergeLeft g (dateRange (minStart g) (maxStart g) step)

/-! ## remove_unrecoverable_nans (the gap-validity filter) -/

/-- Code: `df[column].notna()`. -/
def hasObs (r : GridRow) : Bool := r.ppm3.isSome

/-- Code: `df[column] == 0` (a NaN compares unequal to 0 in pandas). -/
def isZeroRow (r : GridRow) : Bool := r.ppm3 == some 0

/-- The trailing rolling window of `rolling(window = w+1, min_periods = 1)`
at position `i`: the last `w+1` entries ending at `i` (all `i+1` of them
while `i ≤ w`). -/
def trailingWindow {α : Type} (l : List α) (w i : ℕ) : List α :=
  (l.take (i + 1)).drop (i - w)

/-- Trailing rolling count of entries satisfying `P`
(= `series.rolling(window = w+1, center = False, min_periods = 1).sum()`
of the 0/1 indicator of `P`, read at position `i`). -/
def trailingCountP {α : Type} (P : α → Bool) (l : List α) (w i : ℕ) : ℕ :=
  (trailingWindow l w i).countP P

/-- The rolling count of non-missing `PPM3` at grid position `i`
(step 2 + step 3 of the filter: `has_obs.rolling(window+1, min_periods=1).sum()`). -/
def countObs (l : List GridRow) (w i : ℕ) : ℕ := trailingCountP hasObs l w i

/-- A DataFrame with its positional index made explicit. -/
def idxRows {α : Type} [Inhabited α] (l : List α) : List (ℕ × α) :=
  (List.range l.length).map (fun i => (i, l.getD i default))

/-- Code: `df.loc[counts >= min_valid]`: the density rule, keeping exactly the
grid rows whose trailing observation count reaches `min_valid`. This is the
whole of the hourly `remove_unrecoverable_nans` (the initial `reindex` is
the identity on the full grid `station_fill` produces). -/
def removeUnrecoverableNans (l : List GridRow) (w m : ℕ) : List (ℕ × GridRow) :=
  (idxRows l).filter (fun p => decide (m ≤ countObs l w p.1))

/-- Rolling zero-count at position `k` **of the density-filtered frame**
(`zero_mask.rolling(window+1, min_periods=1).sum()` where
`zero_mask = df[column] == 0` is computed after `df = df.loc[counts >= min_valid]`). -/
def zeroCount (d : List (ℕ × GridRow)) (w k : ℕ) : ℕ :=
  trailingCountP (fun p => isZeroRow p.2) d w k

/-- Code: `df = df[zero_counts <= 3]`: the daily-mode zero rule, applied to the
density-filtered frame. -/
def zeroFilter (d : List (ℕ × GridRow)) (w : ℕ) : List (ℕ × GridRow) :=
  ((idxRows d).filter (fun q => decide (zeroCount d w q.1 ≤ 3))).map (fun q => q.2)

/-- The daily `remove_unrecoverable_nans`: density rule, then zero rule on
the surviving rows. -/
def removeUnrecoverableNansDaily (l : List GridRow) (w m : ℕ) :
    List (ℕ × GridRow) :=
  zeroFilter (removeUnrecoverableNans l w m) w

/-! ## clean_station (both modes) -/

/-- The `SiteId` repair of `clean_station`:
`site_id = ts["SiteId"].dropna().unique()[0]` (an `IndexError` when the
column is all-NaN), then `ts["SiteId"] = ts["SiteId"].fillna(site_id)` and
`ts["Date"] = ts.index`. -/
def repairSite (ts : List GridRow) : Except String (List CleanRow) :=
  match (ts.filterMap (fun r => r.siteId)).head? with
  | none => .error "index 0 is out of bounds for axis 0 with size 0"
  | some sid => .ok (ts.map (fun r => ⟨r.siteId.getD sid, r.starting, r.ppm3, r.cnt⟩))

/-- Left-to-right effectful map over `Except` (a Python `for` loop in which
any iteration may raise). -/
def exceptMap {α β : Type} (f : α → Except String β) :
    List α → Except String (List β)
  | [] => .ok []
  | a :: as =>
    match f a with
    | .error e => .error e
    | .ok b =>
      match exceptMap f as with
      | .error e => .error e
      | .ok bs => .ok (b :: bs)

/-- The message of the `ValueError` raised by `pd.concat` on an empty list. -/
def concatErr : String := "No objects to concatenate"

/-- Hourly `CleanData.clean_station`: per valid site, resample, filter,
skip empty results, repair `SiteId`, and concatenate — `pd.concat` raising
when every site came out empty. -/
def keptSeries (sites : List ℕ) (cat : List Raw) (w m spc : ℕ) (step : ℤ) :
    List (List GridRow) :=
  (validSites sites cat spc).filterMap (fun g =>
    let ts := (removeUnrecoverableNans (stationFill (getGroup sites cat g) step) w m).map
      (fun p => p.2)
    if ts.isEmpty then none else some ts)

def cleanStation (sites : List ℕ) (cat : List Raw) (w m spc : ℕ) (step : ℤ) :
    Except String (List CleanRow) :=
  match exceptMap repairSite (keptSeries sites cat w m spc step) with
  | .error e => .error e
  | .ok repaired =>
    if repaired.isEmpty then .error concatErr else .ok repaired.flatten

/-- Daily `CleanData.clean_station`: additionally skips sites whose filtered
series has fewer than 40 rows, and returns `none` (Python `None`) instead of
raising when no site survives. -/
def keptSeriesDaily (sites : List ℕ) (cat : List Raw) (w m spc : ℕ)
    (step : ℤ) : List (List GridRow) :=
  (validSites sites cat spc).filterMap (fun g =>
    let ts := (removeUnrecoverableNansDaily (stationFill (getGroup sites cat g) step) w m).map
      (fun p => p.2)
    if ts.isEmpty then none
    else if ts.length < 40 then none
    else some ts)

def cleanStationDaily (sites : List ℕ) (cat : List Raw) (w m spc : ℕ)
    (step : ℤ) : Except String (Option (List CleanRow)) :=
  match exceptMap repairSite (keptSeriesDaily sites cat w m spc step) with
  | .error e => .error e
  | .ok repaired =>
    if repaired.isEmpty then .ok none else .ok (some repaired.flatten)

/-! ## The imputation engine (`src_daily/impute.py`, `DataImputer`)

`StandardScaler` is modelled exactly over `ℚ` except for the square root of
the variance, which is an external numeric routine (`numpy`); it is an
explicit function parameter `sq`.  `sklearn` replaces an exactly-zero
per-column scale by 1 (`_handle_zeros_in_scale`), so the recorded scale is
never zero.  `IterativeImputer.fit_transform` is an external tree-ensemble
routine; it is an explicit function parameter `fill` whose contract
(`FillContract`: same shape, observed entries returned unchanged) is the
documented behaviour of an sklearn imputer. -/

/-- A fitted per-column `StandardScaler` state (`mean_`, `scale_`). -/
structure ScalerCol where
  mean : ℚ
  scale : ℚ
  deriving DecidableEq, Repr

/-- The non-missing entries of a column (`sklearn` fits ignoring NaNs). -/
def nanObs (xs : List (Option ℚ)) : List ℚ := xs.filterMap id

/-- Column mean over the observed entries. -/
def colMean (xs : List (Option ℚ)) : ℚ := (nanObs xs).sum / (nanObs xs).length

/-- Column (population) variance over the observed entries. -/
def colVar (xs : List (Option ℚ)) : ℚ :=
  ((nanObs xs).map (fun x => (x - colMean xs) ^ 2)).sum / (nanObs xs).length

/-- Code: `sklearn`'s `_handle_zeros_in_scale`: an exactly-zero scale becomes 1. -/
def handleZeros (s : ℚ) : ℚ := if s = 0 then 1 else s

/-- Fit one column: `mean_ = mean`, `scale_ = sqrt(var)` with zero-handling
(`sq` is the external square-root routine). -/
def fitCol (sq : ℚ → ℚ) (xs : List (Option ℚ)) : ScalerCol :=
  ⟨colMean xs, handleZeros (sq (colVar xs))⟩

/-- Code: `transform` of one value: `(x - mean_) / scale_`. -/
def scaleVal (c : ScalerCol) (x : ℚ) : ℚ := (x - c.mean) / c.scale

/-- Code: `transform` of one column (NaNs propagate). -/
def transformCol (c : ScalerCol) (xs : List (Option ℚ)) : List (Option ℚ) :=
  xs.map (Option.map (scaleVal c))

/-- Code: `inverse_transform` of one value: `y * scale_ + mean_`. -/
def invVal (c : ScalerCol) (y : ℚ) : ℚ := y * c.scale + c.mean

/-- Code: `scaler.inverse_transform` on a complete matrix, column by column. -/
def inverseTransformCols (cs : List ScalerCol) (cols : List (List ℚ)) :
    List (List ℚ) :=
  List.zipWith (fun c col => col.map (invVal c)) cs cols

/-- The per-column scalers of `scaler.fit_transform(X[met_vars + ["PPM3"]])`:
`StandardScaler` is fit jointly on the meteorological columns and the
target, one `(mean_, scale_)` pair per column, target last. -/
def jointScalers (sq : ℚ → ℚ) (mets : List (List (Option ℚ)))
    (ppm3 : List (Option ℚ)) : List ScalerCol :=
  (mets ++ [ppm3]).map (fitCol sq)

/-- The matrix handed to `IterativeImputer.fit_transform`: columns in
`feats = met_vars + time_vars + ["PPM3"]` order, with the meteorological
columns and the target scaled and the time-feature columns untouched. -/
def imputeMatrix (sq : ℚ → ℚ) (mets : List (List (Option ℚ)))
    (times : List (List ℚ)) (ppm3 : List (Option ℚ)) :
    List (List (Option ℚ)) :=
  let sc := List.zipWith transformCol (jointScalers sq mets ppm3) (mets ++ [ppm3])
  sc.dropLast ++ times.map (fun c => c.map some) ++ [sc.getLastD []]

/-- Code: `DataImputer.impute_with_rf`: scale, run the iterative imputer (`fill`),
then un-scale the target column only — the imputed scaled target is placed
as the last column after a zero matrix of width `len(met_vars)`
(`np.hstack([dummy, ppm3_scaled])`), `inverse_transform` is applied and the
last column kept.  Returns the new `PPM3_imputed` column. -/
def imputeWithRF (sq : ℚ → ℚ)
    (fill : List (List (Option ℚ)) → List (List ℚ))
    (mets : List (List (Option ℚ))) (times : List (List ℚ))
    (ppm3 : List (Option ℚ)) : List ℚ :=
  let ppm3Scaled := (fill (imputeMatrix sq mets times ppm3)).getLastD []
  let dummy := mets.map (fun _ => ppm3Scaled.map (fun _ => (0 : ℚ)))
  (inverseTransformCols (jointScalers sq mets ppm3) (dummy ++ [ppm3Scaled])).getLastD []

/-- The contract of `IterativeImputer.fit_transform` on a given input
matrix: the output has the same shape and every observed entry is returned
unchanged (only missing entries are estimated). -/
def FillContract (fill : List (List (Option ℚ)) → List (List ℚ))
    (X : List (List (Option ℚ))) : Prop :=
  List.Forall₂
    (fun (c : List (Option ℚ)) (f : List ℚ) =>
      List.Forall₂ (fun o y => o = none ∨ o = some y) c f)
    X (fill X)

/-! ## The per-file batch (`DataImputer.process_single_file` / `run`)

File names and status messages are lists of characters.  The whole `try:`
body of `process_single_file` (read the CSV, add time features, impute,
write the output file) is an external fallible computation `proc`, whose
success value is the name of the written output file. -/

/-- Code: the f-string failure status: the marker, the file name, and the exception text. -/
def failMsg (fn e : List Char) : List Char :=
  "✗ Error processing ".data ++ fn ++ ": ".data ++ e

/-- Code: the f-string success status: the marker, the input file name, and the output file name. -/
def okMsg (fn out : List Char) : List Char :=
  "✓ Processed ".data ++ fn ++ " -> ".data ++ out

/-- Code: `DataImputer.process_single_file`: run the body, catch any exception at
the file boundary and turn it into a per-file status string. -/
def processSingleFile (proc : List Char → Except (List Char) (List Char))
    (fn : List Char) : List Char :=
  match proc fn with
  | .ok out => okMsg fn out
  | .error e => failMsg fn e

/-- Code: `pool.map(self.process_single_file, files)` in `DataImputer.run`:
one status per file, in submission order. -/
def runBatch (proc : List Char → Except (List Char) (List Char))
    (files : List (List Char)) : List (List Char) :=
  files.map (processSingleFile proc)

/-- A status string is a failure iff it carries the failure marker. -/
def isFailureMsg (s : List Char) : Bool := "✗".data.isPrefixOf s

/-- Whether a run of the per-file body raised. -/
def isErr {ε α : Type} : Except ε α → Bool
  | .error _ => true
  | .ok _ => false

/-! ## Basic lemmas about the embedding -/

theorem insertLe_perm {α : Type} (le : α → α → Bool) (a : α) (l : List α) :
    (insertLe le a l).Perm (a :: l) := by
  induction l with
  | nil => simp [insertLe]
  | cons b bs ih =>
    by_cases h : le a b = true
    · simp [insertLe, h]
    · simp only [insertLe, h]
      exact (ih.cons b).trans (List.Perm.swap a b bs)

theorem insSort_perm {α : Type} (le : α → α → Bool) (l : List α) :
    (insSort le l).Perm l := by
  induction l with
  | nil => simp [insSort]
  | cons a as ih =>
    exact (insertLe_perm le a (insSort le as)).trans (ih.cons a)

theorem sortStart_perm (l : List Raw) : (sortStart l).Perm l :=
  insSort_perm _ l

theorem mem_sortStart {r : Raw} {l : List Raw} : r ∈ sortStart l ↔ r ∈ l :=
  (sortStart_perm l).mem_iff

theorem sortStart_length (l : List Raw) : (sortStart l).length = l.length :=
  (sortStart_perm l).length_eq

theorem mem_sortKeys {a : ℕ} {l : List ℕ} : a ∈ sortKeys l ↔ a ∈ l :=
  (insSort_perm _ l).mem_iff

theorem mem_idxRows {α : Type} [Inhabited α] {l : List α} {p : ℕ × α} :
    p ∈ idxRows l ↔ p.1 < l.length ∧ p.2 = l.getD p.1 default := by
  constructor
  · intro h
    rcases List.mem_map.1 h with ⟨i, hi, rfl⟩
    exact ⟨List.mem_range.1 hi, rfl⟩
  · intro ⟨h1, h2⟩
    refine List.mem_map.2 ⟨p.1, List.mem_range.2 h1, ?_⟩
    exact Prod.ext rfl h2.symm

theorem idxRows_snd_mem {α : Type} [Inhabited α] {l : List α} {p : ℕ × α}
    (h : p ∈ idxRows l) : p.2 ∈ l := by
  rcases mem_idxRows.1 h with ⟨h1, h2⟩
  rw [h2, List.getD_eq_getElem l default h1]
  exact List.getElem_mem h1

/-! ## The trailing rolling window -/

theorem trailingWindow_partial {α : Type} (l : List α) {w i : ℕ} (h : i ≤ w) :
    trailingWindow l w i = l.take (i + 1) := by
  unfold trailingWindow
  rw [Nat.sub_eq_zero_of_le h, List.drop_zero]

/-- Dropping a later suffix keeps a sublist, so trailing counts only grow
when the window start moves left. -/
theorem countP_drop_le_drop {α : Type} (P : α → Bool) (l : List α) {a b : ℕ}
    (h : b ≤ a) : (l.drop a).countP P ≤ (l.drop b).countP P := by
  have : l.drop a = (l.drop b).drop (a - b) := by
    rw [List.drop_drop, Nat.add_sub_cancel' h]
  rw [this]
  exact (List.drop_sublist (a - b) (l.drop b)).countP_le P

/-- Splitting the trailing window of position `i` at its last element. -/
theorem trailingCountP_split {α : Type} [Inhabited α] (P : α → Bool)
    (l : List α) (w i : ℕ) (hi : i < l.length) :
    trailingCountP P l w i =
      ((l.take i).drop (i - w)).countP P +
        (if P (l.getD i default) = true then 1 else 0) := by
  unfold trailingCountP trailingWindow
  have htake : l.take (i + 1) = l.take i ++ [l.getD i default] := by
    rw [List.take_succ, List.getD_eq_getElem l default hi]
    simp [List.getElem?_eq_getElem hi]
  rw [htake, List.drop_append_eq_append_drop]
  have hlen : (l.take i).length = i := by
    simp [Nat.le_of_lt hi]
  rw [hlen, Nat.sub_eq_zero_of_le (Nat.sub_le i w), List.drop_zero,
    List.countP_append]
  congr 1
  simp [List.countP_cons]

/-- The last grid position of a window contributing nothing, the previous
position's window counts at least as much. -/
theorem trailingCountP_le_pred {α : Type} [Inhabited α] (P : α → Bool)
    (l : List α) (w i : ℕ) (hi : i + 1 < l.length)
    (hP : P (l.getD (i + 1) default) = false) :
    trailingCountP P l w (i + 1) ≤ trailingCountP P l w i := by
  rw [trailingCountP_split P l w (i + 1) hi, hP]
  simp only [Bool.false_eq_true, if_false, Nat.add_zero]
  unfold trailingCountP trailingWindow
  have h1 : ((l.take (i + 1)).drop (i + 1 - w)).countP P ≤
      ((l.take (i + 1)).drop (i - w)).countP P :=
    countP_drop_le_drop P _ (by omega)
  exact h1

/-- Core of the safety argument: whenever some position's trailing window
holds at least `m ≥ 1` hits, the **last hit at or before it** is itself a
position whose trailing window holds at least `m` hits. -/
theorem exists_hit_position {α : Type} [Inhabited α] (P : α → Bool)
    (l : List α) (w m : ℕ) (hm : 1 ≤ m) :
    ∀ i, i < l.length → m ≤ trailingCountP P l w i →
      ∃ j, j < l.length ∧ P (l.getD j default) = true ∧
        m ≤ trailingCountP P l w j := by
  intro i
  induction i with
  | zero =>
    intro hi hc
    refine ⟨0, hi, ?_, hc⟩
    by_contra h
    have h0 : P (l.getD 0 default) = false := by
      cases hP : P (l.getD 0 default) with
      | false => rfl
      | true => exact absurd hP h
    have : trailingCountP P l w 0 = 0 := by
      rw [trailingCountP_split P l w 0 hi, h0]
      simp
    omega
  | succ i ih =>
    intro hi hc
    cases hP : P (l.getD (i + 1) default) with
    | true => exact ⟨i + 1, hi, hP, hc⟩
    | false =>
      have hle := trailingCountP_le_pred P l w i hi hP
      exact ih (Nat.lt_of_succ_lt hi) (le_trans hc hle)

/-! ## Characterizations of the gap-validity filter -/

theorem mem_removeUnrecoverableNans {l : List GridRow} {w m : ℕ}
    {p : ℕ × GridRow} :
    p ∈ removeUnrecoverableNans l w m ↔ p ∈ idxRows l ∧ m ≤ countObs l w p.1 := by
  simp [removeUnrecoverableNans, List.mem_filter]

theorem mem_zeroFilter {d : List (ℕ × GridRow)} {w : ℕ} {q : ℕ × GridRow} :
    q ∈ zeroFilter d w ↔
      ∃ k, k < d.length ∧ d.getD k default = q ∧ zeroCount d w k ≤ 3 := by
  unfold zeroFilter
  constructor
  · intro h
    rcases List.mem_map.1 h with ⟨kq, hkq, rfl⟩
    rcases List.mem_filter.1 hkq with ⟨hmem, hcond⟩
    rcases mem_idxRows.1 hmem with ⟨hlt, heq⟩
    exact ⟨kq.1, hlt, heq.symm, by simpa using hcond⟩
  · intro ⟨k, hk, heq, hz⟩
    refine List.mem_map.2 ⟨(k, q), ?_, rfl⟩
    refine List.mem_filter.2 ⟨mem_idxRows.2 ⟨hk, heq.symm⟩, by simpa using hz⟩

theorem daily_subset_density {l : List GridRow} {w m : ℕ} {p : ℕ × GridRow}
    (h : p ∈ removeUnrecoverableNansDaily l w m) :
    p ∈ removeUnrecoverableNans l w m := by
  unfold removeUnrecoverableNansDaily at h
  rcases mem_zeroFilter.1 h with ⟨k, hk, heq, _⟩
  rw [← heq, List.getD_eq_getElem _ default hk]
  exact List.getElem_mem hk

theorem filter_nonempty_has_obs (l : List GridRow) (w m : ℕ) (hm : 1 ≤ m)
    (hne : removeUnrecoverableNans l w m ≠ []) :
    ∃ p ∈ removeUnrecoverableNans l w m, hasObs p.2 = true := by
  obtain ⟨p, hp⟩ := List.exists_mem_of_ne_nil _ hne
  have hmem := mem_removeUnrecoverableNans.1 hp
  obtain ⟨hi, _⟩ := mem_idxRows.1 hmem.1
  obtain ⟨j, hj, hPj, hcj⟩ := exists_hit_position hasObs l w m hm p.1 hi hmem.2
  exact ⟨(j, l.getD j default),
    mem_removeUnrecoverableNans.2 ⟨mem_idxRows.2 ⟨hj, rfl⟩, hcj⟩, hPj⟩

/-! ## The left join -/

theorem mem_mergeLeft {g : List Raw} {grid : List ℤ} {r : GridRow}
    (hr : r ∈ mergeLeft g grid) :
    ∃ t ∈ grid, r.starting = t ∧
      (r = ⟨t, none, none, none⟩ ∨
        ∃ q ∈ g, q.starting = t ∧ r = ⟨t, some q.siteId, q.ppm3, q.cnt⟩) := by
  unfold mergeLeft at hr
  rcases List.mem_flatMap.1 hr with ⟨t, ht, hmem⟩
  refine ⟨t, ht, ?_⟩
  cases hfil : g.filter (fun q => q.starting == t) with
  | nil =>
    rw [hfil] at hmem
    simp only [List.mem_singleton] at hmem
    exact ⟨by rw [hmem], Or.inl hmem⟩
  | cons a as =>
    rw [hfil] at hmem
    rcases List.mem_map.1 hmem with ⟨q, hq, rfl⟩
    have hq' : q ∈ g.filter (fun q => q.starting == t) := by rw [hfil]; exact hq
    rcases List.mem_filter.1 hq' with ⟨hqg, hqt⟩
    exact ⟨rfl, Or.inr ⟨q, hqg, by simpa using hqt, rfl⟩⟩

theorem stationFill_obs_siteId {rows : List Raw} {step : ℤ} {r : GridRow}
    (hr : r ∈ stationFill rows step) (ho : r.ppm3.isSome = true) :
    r.siteId.isSome = true := by
  unfold stationFill at hr
  rcases mem_mergeLeft hr with ⟨t, _, _, hcase⟩
  rcases hcase with h | ⟨q, _, _, h⟩
  · rw [h] at ho; simp at ho
  · rw [h]; rfl

theorem stationFill_ppm3_src {rows : List Raw} {step : ℤ} {r : GridRow}
    (hr : r ∈ stationFill rows step) :
    r.ppm3 = none ∨ ∃ q ∈ rows, r.ppm3 = q.ppm3 := by
  unfold stationFill at hr
  rcases mem_mergeLeft hr with ⟨t, _, _, hcase⟩
  rcases hcase with h | ⟨q, hq, _, h⟩
  · rw [h]; exact Or.inl rfl
  · rw [h]; exact Or.inr ⟨q, mem_sortStart.1 hq, rfl⟩

/-! ## The aggregation loop -/

theorem exceptMap_ok_of_all {α β : Type} (f : α → Except String β)
    (as : List α) (h : ∀ a ∈ as, ∃ b, f a = .ok b) :
    ∃ bs, exceptMap f as = .ok bs := by
  induction as with
  | nil => exact ⟨[], rfl⟩
  | cons a as ih =>
    obtain ⟨b, hb⟩ := h a (List.mem_cons_self a as)
    obtain ⟨bs, hbs⟩ := ih (fun x hx => h x (List.mem_cons_of_mem a hx))
    exact ⟨b :: bs, by simp [exceptMap, hb, hbs]⟩

theorem exceptMap_ok_sources {α β : Type} (f : α → Except String β)
    (as : List α) (bs : List β) (h : exceptMap f as = .ok bs) :
    ∀ b ∈ bs, ∃ a ∈ as, f a = .ok b := by
  induction as generalizing bs with
  | nil =>
    simp only [exceptMap] at h
    cases h
    intro b hb
    simp at hb
  | cons a as ih =>
    simp only [exceptMap] at h
    cases hfa : f a with
    | error e => rw [hfa] at h; cases h
    | ok b0 =>
      rw [hfa] at h
      cases hrest : exceptMap f as with
      | error e => rw [hrest] at h; cases h
      | ok bs0 =>
        rw [hrest] at h
        cases h
        intro b hb
        rcases List.mem_cons.1 hb with rfl | hb
        · exact ⟨a, List.mem_cons_self a as, hfa⟩
        · obtain ⟨a', ha', hfa'⟩ := ih bs0 hrest b hb
          exact ⟨a', List.mem_cons_of_mem a ha', hfa'⟩

theorem repairSite_ok_of_siteId {ts : List GridRow}
    (h : ts.filterMap (fun r => r.siteId) ≠ []) :
    ∃ out, repairSite ts = .ok out := by
  unfold repairSite
  cases hh : (ts.filterMap (fun r => r.siteId)).head? with
  | none =>
    cases hts : ts.filterMap (fun r => r.siteId) with
    | nil => exact absurd hts h
    | cons x xs => rw [hts] at hh; cases hh
  | some sid => exact ⟨_, rfl⟩

theorem mem_keptSeries {sites : List ℕ} {cat : List Raw} {w m spc : ℕ}
    {step : ℤ} {ts : List GridRow}
    (h : ts ∈ keptSeries sites cat w m spc step) :
    ∃ g ∈ validSites sites cat spc,
      ts = (removeUnrecoverableNans (stationFill (getGroup sites cat g) step) w m).map
        (fun p => p.2) ∧ ts ≠ [] := by
  unfold keptSeries at h
  rcases List.mem_filterMap.1 h with ⟨g, hg, heq⟩
  simp only at heq
  by_cases hemp : ((removeUnrecoverableNans (stationFill (getGroup sites cat g) step) w m).map
      (fun p => p.2)).isEmpty = true
  · rw [if_pos hemp] at heq; cases heq
  · rw [if_neg hemp] at heq
    cases heq
    exact ⟨g, hg, rfl, by simpa [List.isEmpty_iff] using hemp⟩

/-- C9: In hourly mode, for every per-site series and every `min_valid ≥ 1`,
a non-empty filter result contains a retained row with non-missing PPM3;
on grids built by `station_fill` such a row also carries a non-missing
`SiteId`, so the `SiteId` repair (`ts["SiteId"].dropna().unique()[0]`)
never indexes into an empty array: `clean_station` can only raise the
`pd.concat` empty-list error, never the repair's `IndexError`. -/
theorem siteId_repair_safe (w m : ℕ) (hm : 1 ≤ m) :
    (∀ l : List GridRow, removeUnrecoverableNans l w m ≠ [] →
       ∃ p ∈ removeUnrecoverableNans l w m, hasObs p.2 = true) ∧
    (∀ (rows : List Raw) (step : ℤ),
       removeUnrecoverableNans (stationFill rows step) w m ≠ [] →
       ((removeUnrecoverableNans (stationFill rows step) w m).map (fun p => p.2)).filterMap
           (fun r => r.siteId) ≠ []) ∧
    (∀ (sites : List ℕ) (cat : List Raw) (spc : ℕ) (step : ℤ) (e : String),
       cleanStation sites cat w m spc step = .error e → e = concatErr) := by
  have h1 : ∀ l : List GridRow, removeUnrecoverableNans l w m ≠ [] →
      ∃ p ∈ removeUnrecoverableNans l w m, hasObs p.2 = true :=
    fun l => filter_nonempty_has_obs l w m hm
  have h2 : ∀ (rows : List Raw) (step : ℤ),
      removeUnrecoverableNans (stationFill rows step) w m ≠ [] →
      ((removeUnrecoverableNans (stationFill rows step) w m).map (fun p => p.2)).filterMap
          (fun r => r.siteId) ≠ [] := by
    intro rows step hne
    obtain ⟨p, hp, hobs⟩ := h1 _ hne
    have hp2 : p.2 ∈ stationFill rows step :=
      idxRows_snd_mem (mem_removeUnrecoverableNans.1 hp).1
    obtain ⟨s, hs⟩ := Option.isSome_iff_exists.1 (stationFill_obs_siteId hp2 hobs)
    intro hcontra
    have hmem : s ∈ ((removeUnrecoverableNans (stationFill rows step) w m).map
        (fun p => p.2)).filterMap (fun r => r.siteId) :=
      List.mem_filterMap.2 ⟨p.2, List.mem_map.2 ⟨p, hp, rfl⟩, hs⟩
    rw [hcontra] at hmem
    simp at hmem
  refine ⟨h1, h2, ?_⟩
  intro sites cat spc step e h
  have hall : ∀ ts ∈ keptSeries sites cat w m spc step,
      ∃ out, repairSite ts = .ok out := by
    intro ts hts
    obtain ⟨g, _, rfl, hne⟩ := mem_keptSeries hts
    have hfilne : removeUnrecoverableNans (stationFill (getGroup sites cat g) step) w m ≠ [] := by
      intro hnil
      apply hne
      rw [hnil]
      rfl
    exact repairSite_ok_of_siteId (h2 (getGroup sites cat g) step hfilne)
  obtain ⟨bs, hbs⟩ := exceptMap_ok_of_all _ _ hall
  unfold cleanStation at h
  rw [hbs] at h
  have h' : (if bs.isEmpty then (Except.error concatErr : Except String (List CleanRow))
      else Except.ok bs.flatten) = .error e := h
  by_cases hemp : bs.isEmpty
  · rw [if_pos hemp] at h'
    exact (Except.error.inj h').symm
  · rw [if_neg hemp] at h'
    cases h'

/-- Witness for C9 at `min_valid = 1` and a one-row grid. -/
theorem siteId_repair_safe_witness :
    ∃ p ∈ removeUnrecoverableNans [⟨0, some 1, some 1, none⟩] 6 1,
      hasObs p.2 = true :=
  (siteId_repair_safe 6 1 (by decide)).1 [⟨0, some 1, some 1, none⟩] (by decide)

/-- C1: a row of the full per-site grid is retained by the density rule iff
the trailing rolling count of non-missing PPM3 over the last `window+1`
grid steps (`window` prior steps plus the row itself; at the series start
just the rows that exist, never an automatic failure) reaches `min_valid`;
in daily mode every retained row also satisfies this bound, and every
dropped row either misses the density bound or fails the zero rule. -/
theorem gap_filter_density_invariant (l : List GridRow) (w m : ℕ) :
    (∀ p ∈ removeUnrecoverableNans l w m, m ≤ countObs l w p.1) ∧
    (∀ p ∈ idxRows l, p ∉ removeUnrecoverableNans l w m → countObs l w p.1 < m) ∧
    (∀ i, i ≤ w → trailingWindow l w i = l.take (i + 1)) ∧
    (∀ p ∈ removeUnrecoverableNansDaily l w m, m ≤ countObs l w p.1) ∧
    (∀ p ∈ idxRows l, p ∉ removeUnrecoverableNansDaily l w m →
       countObs l w p.1 < m ∨
       ∃ k, k < (removeUnrecoverableNans l w m).length ∧
         (removeUnrecoverableNans l w m).getD k default = p ∧
         3 < zeroCount (removeUnrecoverableNans l w m) w k) := by
  refine ⟨?_, ?_, ?_, ?_, ?_⟩
  · intro p hp
    exact (mem_removeUnrecoverableNans.1 hp).2
  · intro p hp hnot
    by_contra hcon
    exact hnot (mem_removeUnrecoverableNans.2 ⟨hp, not_lt.1 hcon⟩)
  · intro i hi
    exact trailingWindow_partial l hi
  · intro p hp
    exact (mem_removeUnrecoverableNans.1 (daily_subset_density hp)).2
  · intro p hp hnot
    by_cases hd : p ∈ removeUnrecoverableNans l w m
    · right
      obtain ⟨k, hk, heq⟩ := List.mem_iff_getElem.1 hd
      refine ⟨k, hk, by rw [List.getD_eq_getElem _ default hk, heq], ?_⟩
      by_contra hz
      apply hnot
      unfold removeUnrecoverableNansDaily
      exact mem_zeroFilter.2 ⟨k, hk,
        by rw [List.getD_eq_getElem _ default hk, heq], not_lt.1 hz⟩
    · left
      by_contra hcon
      exact hd (mem_removeUnrecoverableNans.2 ⟨hp, not_lt.1 hcon⟩)

/-- Witness for C1 on a one-row observed grid. -/
theorem gap_filter_density_invariant_witness :
    1 ≤ countObs [⟨0, some 1, some 1, none⟩] 6 0 :=
  (gap_filter_density_invariant [⟨0, some 1, some 1, none⟩] 6 1).1
    (0, ⟨0, some 1, some 1, none⟩) (by decide)

/-! ## The daily zero rule: code vs. spec wording (C2) -/

/-- The zero rule as the spec words it (for comparison with the source):
a trailing rolling zero-count over the same `window+1` **consecutive grid
steps** used by the density rule, dropping rows whose count exceeds 3. -/
def zeroRuleOnGridStepsSpec (l : List GridRow) (w m : ℕ) :
    List (ℕ × GridRow) :=
  (removeUnrecoverableNans l w m).filter
    (fun p => decide (trailingCountP isZeroRow l w p.1 ≤ 3))

/-- A 28-step daily grid: positions 0–7 observed with value 0, 8–19
missing, 20–27 observed with value 1. -/
def zeroGapGrid : List GridRow :=
  (List.range 28).map (fun i =>
    if i < 8 then ⟨(i : ℤ), some 1, some 0, none⟩
    else if i < 20 then ⟨(i : ℤ), none, none, none⟩
    else ⟨(i : ℤ), some 1, some 1, none⟩)

/-- Counterexample to C2 (daily defaults `window = 7`, `min_valid = 5`):
grid position 24 has **zero** exact-zero readings among its last `window+1`
consecutive grid steps, so the spec's reading retains it, yet the code
drops it — the code's second rolling sum runs over the last `window+1`
rows of the already density-filtered frame, which here reach back to the
zero readings at positions 4–7. -/
theorem zero_rule_grid_window_counterexample :
    trailingCountP isZeroRow zeroGapGrid 7 24 = 0 ∧
    (zeroRuleOnGridStepsSpec zeroGapGrid 7 5).map (fun p => p.1) =
      [24, 25, 26, 27] ∧
    (removeUnrecoverableNansDaily zeroGapGrid 7 5).map (fun p => p.1) =
      [4, 5, 6, 25, 26, 27] := by
  decide

/-- C2 amended: in daily mode the second trailing rolling sum counts
exact-zero PPM3 values over the last `window+1` **rows of the
density-filtered frame** (not consecutive grid steps — density-dropped
rows are absent), and drops exactly those surviving rows whose zero-count
exceeds 3; only rows retained by the density rule can appear. -/
theorem zero_rule_filtered_window (l : List GridRow) (w m : ℕ) :
    (∀ q : ℕ × GridRow,
       q ∈ removeUnrecoverableNansDaily l w m ↔
       ∃ k, k < (removeUnrecoverableNans l w m).length ∧
         (removeUnrecoverableNans l w m).getD k default = q ∧
         zeroCount (removeUnrecoverableNans l w m) w k ≤ 3) ∧
    (∀ q ∈ removeUnrecoverableNansDaily l w m,
       q ∈ removeUnrecoverableNans l w m) := by
  refine ⟨fun q => mem_zeroFilter, fun q => daily_subset_density⟩

/-- Witness for C2's amended theorem: the first density-retained row of the
counterexample grid survives the zero rule. -/
theorem zero_rule_filtered_window_witness :
    ∃ k, k < (removeUnrecoverableNans zeroGapGrid 7 5).length ∧
      (removeUnrecoverableNans zeroGapGrid 7 5).getD k default =
        (4, ⟨(4 : ℤ), some 1, some 0, none⟩) ∧
      zeroCount (removeUnrecoverableNans zeroGapGrid 7 5) 7 k ≤ 3 :=
  ((zero_rule_filtered_window zeroGapGrid 7 5).1
    (4, ⟨(4 : ℤ), some 1, some 0, none⟩)).1 (by decide)

/-! ## Empty-result behaviour of the aggregation (C5) -/

/-- A two-row site table whose observations are 10 grid steps apart: the
site passes the `samples_per_site = 1` pre-check but every grid position
has at most 2 observed neighbours, so with `min_valid = 6` the whole series
is dropped. -/
def sparseCat : List Raw := [⟨1, 0, some 1, none⟩, ⟨1, 10, some 2, none⟩]

/-- Counterexample to C5: an input on which zero sites survive filtering,
yet hourly `clean_station` raises `pd.concat`'s `ValueError` instead of
reporting an empty result. -/
theorem empty_result_hourly_raises :
    (∀ g ∈ validSites [1] sparseCat 1,
       removeUnrecoverableNans (stationFill (getGroup [1] sparseCat g) 1) 6 6 = []) ∧
    cleanStation [1] sparseCat 6 6 1 1 = .error concatErr := by
  decide

/-- C5 amended: when every valid site's filtered series is empty, hourly
`clean_station` raises the `pd.concat` empty-list `ValueError`; daily
`clean_station` (where an empty or short series is skipped) returns `None`
without raising.  The empty-result condition is reported non-exceptionally
only in daily mode. -/
theorem empty_result_behavior (sites : List ℕ) (cat : List Raw)
    (w m spc : ℕ) (step : ℤ)
    (hH : ∀ g ∈ validSites sites cat spc,
       removeUnrecoverableNans (stationFill (getGroup sites cat g) step) w m = [])
    (hD : ∀ g ∈ validSites sites cat spc,
       (removeUnrecoverableNansDaily (stationFill (getGroup sites cat g) step) w m).length < 40) :
    cleanStation sites cat w m spc step = .error concatErr ∧
    cleanStationDaily sites cat w m spc step = .ok none := by
  constructor
  · have hk : keptSeries sites cat w m spc step = [] := by
      unfold keptSeries
      rw [List.filterMap_eq_nil_iff]
      intro g hg
      simp only
      rw [if_pos]
      rw [hH g hg]
      rfl
    unfold cleanStation
    rw [hk]
    rfl
  · have hk : keptSeriesDaily sites cat w m spc step = [] := by
      unfold keptSeriesDaily
      rw [List.filterMap_eq_nil_iff]
      intro g hg
      simp only
      by_cases hemp : ((removeUnrecoverableNansDaily (stationFill (getGroup sites cat g) step) w m).map
          (fun p => p.2)).isEmpty = true
      · rw [if_pos hemp]
      · rw [if_neg hemp, if_pos]
        rw [List.length_map]
        exact hD g hg
    unfold cleanStationDaily
    rw [hk]
    rfl

/-- Witness for C5's amended theorem on the sparse two-row site. -/
theorem empty_result_behavior_witness :
    cleanStation [1] sparseCat 6 6 1 1 = .error concatErr ∧
    cleanStationDaily [1] sparseCat 6 6 1 1 = .ok none :=
  empty_result_behavior [1] sparseCat 6 6 1 1 (by decide) (by decide)

/-! ## Endpoints of a site table -/

theorem foldl_min_spec (rs : List Raw) (b : ℤ) :
    (rs.foldl (fun a x => min a x.starting) b = b ∨
      ∃ q ∈ rs, rs.foldl (fun a x => min a x.starting) b = q.starting) ∧
    rs.foldl (fun a x => min a x.starting) b ≤ b ∧
    ∀ q ∈ rs, rs.foldl (fun a x => min a x.starting) b ≤ q.starting := by
  induction rs generalizing b with
  | nil => exact ⟨Or.inl rfl, le_refl b, by simp⟩
  | cons x xs ih =>
    obtain ⟨hmem, hle, hall⟩ := ih (min b x.starting)
    simp only [List.foldl_cons]
    refine ⟨?_, ?_, ?_⟩
    · rcases hmem with h | ⟨q, hq, h⟩
      · rcases le_total b x.starting with hbx | hbx
        · rw [h, min_eq_left hbx]; exact Or.inl rfl
        · rw [h, min_eq_right hbx]
          exact Or.inr ⟨x, List.mem_cons_self x xs, rfl⟩
      · exact Or.inr ⟨q, List.mem_cons_of_mem x hq, h⟩
    · exact le_trans hle (min_le_left _ _)
    · intro q hq
      rcases List.mem_cons.1 hq with rfl | hq
      · exact le_trans hle (min_le_right _ _)
      · exact hall q hq

theorem foldl_max_spec (rs : List Raw) (b : ℤ) :
    (rs.foldl (fun a x => max a x.starting) b = b ∨
      ∃ q ∈ rs, rs.foldl (fun a x => max a x.starting) b = q.starting) ∧
    b ≤ rs.foldl (fun a x => max a x.starting) b ∧
    ∀ q ∈ rs, q.starting ≤ rs.foldl (fun a x => max a x.starting) b := by
  induction rs generalizing b with
  | nil => exact ⟨Or.inl rfl, le_refl b, by simp⟩
  | cons x xs ih =>
    obtain ⟨hmem, hle, hall⟩ := ih (max b x.starting)
    simp only [List.foldl_cons]
    refine ⟨?_, ?_, ?_⟩
    · rcases hmem with h | ⟨q, hq, h⟩
      · rcases le_total b x.starting with hbx | hbx
        · rw [h, max_eq_right hbx]
          exact Or.inr ⟨x, List.mem_cons_self x xs, rfl⟩
        · rw [h, max_eq_left hbx]; exact Or.inl rfl
      · exact Or.inr ⟨q, List.mem_cons_of_mem x hq, h⟩
    · exact le_trans (le_max_left _ _) hle
    · intro q hq
      rcases List.mem_cons.1 hq with rfl | hq
      · exact le_trans (le_max_right _ _) hle
      · exact hall q hq

theorem minStart_spec {l : List Raw} (h : l ≠ []) :
    (∃ q ∈ l, minStart l = q.starting) ∧ ∀ q ∈ l, minStart l ≤ q.starting := by
  cases l with
  | nil => exact absurd rfl h
  | cons r rs =>
    obtain ⟨hmem, hle, hall⟩ := foldl_min_spec rs r.starting
    constructor
    · rcases hmem with h | ⟨q, hq, h⟩
      · exact ⟨r, List.mem_cons_self r rs, h⟩
      · exact ⟨q, List.mem_cons_of_mem r hq, h⟩
    · intro q hq
      rcases List.mem_cons.1 hq with rfl | hq
      · exact hle
      · exact hall q hq

theorem maxStart_spec {l : List Raw} (h : l ≠ []) :
    (∃ q ∈ l, maxStart l = q.starting) ∧ ∀ q ∈ l, q.starting ≤ maxStart l := by
  cases l with
  | nil => exact absurd rfl h
  | cons r rs =>
    obtain ⟨hmem, hle, hall⟩ := foldl_max_spec rs r.starting
    constructor
    · rcases hmem with h | ⟨q, hq, h⟩
      · exact ⟨r, List.mem_cons_self r rs, h⟩
      · exact ⟨q, List.mem_cons_of_mem r hq, h⟩
    · intro q hq
      rcases List.mem_cons.1 hq with rfl | hq
      · exact hle
      · exact hall q hq

theorem minStart_le_maxStart {l : List Raw} (h : l ≠ []) :
    minStart l ≤ maxStart l := by
  obtain ⟨⟨q, hq, hmin⟩, _⟩ := minStart_spec h
  obtain ⟨_, hall⟩ := maxStart_spec h
  rw [hmin]
  exact hall q hq

theorem minStart_perm {l l' : List Raw} (hp : l.Perm l') (h : l ≠ []) :
    minStart l = minStart l' := by
  have h' : l' ≠ [] := by
    intro hc; rw [hc] at hp; exact h hp.eq_nil
  obtain ⟨⟨q, hq, hmin⟩, hall⟩ := minStart_spec h
  obtain ⟨⟨q', hq', hmin'⟩, hall'⟩ := minStart_spec h'
  refine le_antisymm ?_ ?_
  · rw [hmin']; exact hall q' (hp.mem_iff.2 hq')
  · rw [hmin]; exact hall' q (hp.mem_iff.1 hq)

theorem maxStart_perm {l l' : List Raw} (hp : l.Perm l') (h : l ≠ []) :
    maxStart l = maxStart l' := by
  have h' : l' ≠ [] := by
    intro hc; rw [hc] at hp; exact h hp.eq_nil
  obtain ⟨⟨q, hq, hmax⟩, hall⟩ := maxStart_spec h
  obtain ⟨⟨q', hq', hmax'⟩, hall'⟩ := maxStart_spec h'
  refine le_antisymm ?_ ?_
  · rw [hmax]; exact hall' q (hp.mem_iff.1 hq)
  · rw [hmax']; exact hall q' (hp.mem_iff.2 hq')

/-! ## The time grid -/

theorem dateRange_length (lo hi s : ℤ) :
    (dateRange lo hi s).length = (hi - lo).toNat / s.toNat + 1 := by
  unfold dateRange
  rw [List.length_map, List.length_range]

theorem dateRange_getD (lo hi s : ℤ) (k : ℕ)
    (hk : k < (dateRange lo hi s).length) :
    (dateRange lo hi s).getD k 0 = lo + k * s := by
  have hk' : k < (List.range ((hi - lo).toNat / s.toNat + 1)).length := by
    rw [List.length_range]
    rw [dateRange_length] at hk
    exact hk
  unfold dateRange at *
  rw [List.getD_eq_getElem _ _ hk, List.getElem_map, List.getElem_range]

theorem dateRange_head (lo hi s : ℤ) :
    (dateRange lo hi s).head? = some lo := by
  unfold dateRange
  rw [List.range_succ_eq_map]
  simp

theorem dateRange_getLast (lo hi s : ℤ) (hlo : lo ≤ hi) (hs : 0 < s)
    (hdvd : s ∣ hi - lo) :
    (dateRange lo hi s).getLast? = some hi := by
  unfold dateRange
  rw [List.range_succ, List.map_append]
  simp only [List.map_cons, List.map_nil]
  rw [List.getLast?_concat]
  have hs0 : (0 : ℤ) ≤ s := le_of_lt hs
  have hhl : (0 : ℤ) ≤ hi - lo := by omega
  have hdvd' : s.toNat ∣ (hi - lo).toNat := by
    have h1 : ((s.toNat : ℤ)) ∣ ((hi - lo).toNat : ℤ) := by
      rw [Int.toNat_of_nonneg hs0, Int.toNat_of_nonneg hhl]
      exact hdvd
    exact_mod_cast h1
  have hcan : (hi - lo).toNat / s.toNat * s.toNat = (hi - lo).toNat :=
    Nat.div_mul_cancel hdvd'
  have h3 := congrArg (fun x : ℕ => (x : ℤ)) hcan
  simp only [Nat.cast_mul] at h3
  rw [Int.toNat_of_nonneg hs0, Int.toNat_of_nonneg hhl] at h3
  have : lo + ((hi - lo).toNat / s.toNat : ℕ) * s = hi := by linarith
  rw [this]

/-! ## The left join produces one row per grid slot (duplicate-free input) -/

theorem filter_starting_short {g : List Raw}
    (hnd : (g.map Raw.starting).Nodup) (t : ℤ) :
    g.filter (fun q => q.starting == t) = [] ∨
      ∃ q, g.filter (fun q => q.starting == t) = [q] ∧ q.starting = t := by
  induction g with
  | nil => exact Or.inl rfl
  | cons a as ih =>
    simp only [List.map_cons, List.nodup_cons] at hnd
    obtain ⟨hna, hnd'⟩ := hnd
    by_cases hat : a.starting = t
    · right
      refine ⟨a, ?_, hat⟩
      rw [List.filter_cons_of_pos (by simpa using hat)]
      have : as.filter (fun q => q.starting == t) = [] := by
        rw [List.filter_eq_nil_iff]
        intro q hq hcon
        apply hna
        rw [← hat] at hcon
        have : q.starting = a.starting := by simpa using hcon
        rw [← this]
        exact List.mem_map.2 ⟨q, hq, rfl⟩
      rw [this]
    · rw [List.filter_cons_of_neg (by simpa using hat)]
      exact ih hnd'

theorem mergeLeft_map_starting {g : List Raw}
    (hnd : (g.map Raw.starting).Nodup) (grid : List ℤ) :
    (mergeLeft g grid).map GridRow.starting = grid := by
  induction grid with
  | nil => rfl
  | cons t ts ih =>
    unfold mergeLeft at *
    rw [List.flatMap_cons, List.map_append, ih]
    rcases filter_starting_short hnd t with hfil | ⟨q, hfil, _⟩
    · rw [hfil]
      rfl
    · rw [hfil]
      rfl

theorem int_eq_quot_mul {a s : ℤ} (ha : 0 ≤ a) (hs : 0 < s) (hdvd : s ∣ a) :
    a = ((a.toNat / s.toNat : ℕ) : ℤ) * s := by
  have hs0 : (0 : ℤ) ≤ s := le_of_lt hs
  have hdvd' : s.toNat ∣ a.toNat := by
    have h1 : ((s.toNat : ℤ)) ∣ ((a.toNat : ℤ)) := by
      rw [Int.toNat_of_nonneg hs0, Int.toNat_of_nonneg ha]
      exact hdvd
    exact_mod_cast h1
  have hcan : a.toNat / s.toNat * s.toNat = a.toNat := Nat.div_mul_cancel hdvd'
  have h3 := congrArg (fun x : ℕ => (x : ℤ)) hcan
  simp only [Nat.cast_mul] at h3
  rw [Int.toNat_of_nonneg hs0, Int.toNat_of_nonneg ha] at h3
  exact h3.symm

/-- An input whose endpoints are not a whole number of steps apart:
observations at times 0 and 90 with an hourly step of 60 time units. -/
def offGridRows : List Raw := [⟨1, 0, some 1, none⟩, ⟨1, 90, some 2, none⟩]

/-- Counterexample to C3: for the duplicate-free non-empty input with raw
timestamps 0 and 90 and step 60, `pd.date_range(min, max)` stops at the
last point `≤ max`, so the grid is `[0, 60]` — `max(Starting) = 90` is
**not** included, falsifying "inclusive of both endpoints" (and the raw row
at 90 is silently absent from the resampled frame). -/
theorem resample_endpoint_counterexample :
    offGridRows ≠ [] ∧
    (offGridRows.map Raw.starting).Nodup ∧
    minStart (sortStart offGridRows) = 0 ∧
    maxStart (sortStart offGridRows) = 90 ∧
    (stationFill offGridRows 60).map GridRow.starting = [0, 60] ∧
    (90 : ℤ) ∉ (stationFill offGridRows 60).map GridRow.starting := by
  decide

/-- C3 amended: for a non-empty duplicate-free per-site input whose
timestamp span `max - min` is a whole multiple of the step, the resampled
frame has exactly `(max-min)/step + 1` rows, one per grid slot; its
timestamps start at `min(Starting)`, increase by exactly `step`, and end at
`max(Starting)`; and every grid row with no exact-timestamp raw match has
all measurement columns and `SiteId` missing.  (Without the divisibility
hypothesis the grid stops at the last point `≤ max`, as the counterexample
shows.) -/
theorem resample_grid_spec (rows : List Raw) (s : ℤ) (hs : 0 < s)
    (hne : rows ≠ []) (hnd : (rows.map Raw.starting).Nodup)
    (hdvd : s ∣ maxStart rows - minStart rows) :
    (stationFill rows s).map GridRow.starting =
      dateRange (minStart rows) (maxStart rows) s ∧
    (∃ q : ℕ, maxStart rows - minStart rows = (q : ℤ) * s ∧
       (stationFill rows s).length = q + 1) ∧
    (∀ k : ℕ, k + 1 < (stationFill rows s).length →
       ((stationFill rows s).map GridRow.starting).getD (k + 1) 0 =
         ((stationFill rows s).map GridRow.starting).getD k 0 + s) ∧
    ((stationFill rows s).map GridRow.starting).head? = some (minStart rows) ∧
    ((stationFill rows s).map GridRow.starting).getLast? = some (maxStart rows) ∧
    (∀ r ∈ stationFill rows s, (∀ q ∈ rows, q.starting ≠ r.starting) →
       r.ppm3 = none ∧ r.siteId = none ∧ r.cnt = none) := by
  have hperm := sortStart_perm rows
  have hgne : sortStart rows ≠ [] := by
    intro hc
    apply hne
    have := hperm.length_eq
    rw [hc] at this
    exact List.length_eq_zero.1 this.symm
  have hndg : ((sortStart rows).map Raw.starting).Nodup :=
    (hperm.map Raw.starting).nodup_iff.2 hnd
  have hmin : minStart (sortStart rows) = minStart rows := minStart_perm hperm hgne
  have hmax : maxStart (sortStart rows) = maxStart rows := maxStart_perm hperm hgne
  have hlo : minStart rows ≤ maxStart rows := by
    rw [← hmin, ← hmax]
    exact minStart_le_maxStart hgne
  have hmain : (stationFill rows s).map GridRow.starting =
      dateRange (minStart rows) (maxStart rows) s := by
    unfold stationFill
    rw [mergeLeft_map_starting hndg, hmin, hmax]
  have hlen : (stationFill rows s).length =
      (maxStart rows - minStart rows).toNat / s.toNat + 1 := by
    rw [← List.length_map (stationFill rows s) GridRow.starting, hmain,
      dateRange_length]
  refine ⟨hmain, ?_, ?_, ?_, ?_, ?_⟩
  · exact ⟨(maxStart rows - minStart rows).toNat / s.toNat,
      int_eq_quot_mul (by omega) hs hdvd, hlen⟩
  · intro k hk
    have hk2 : k + 1 < (dateRange (minStart rows) (maxStart rows) s).length := by
      rw [← hmain, List.length_map]
      exact hk
    rw [hmain, dateRange_getD _ _ _ _ hk2,
      dateRange_getD _ _ _ _ (Nat.lt_of_succ_lt hk2)]
    push_cast
    ring
  · rw [hmain, dateRange_head]
  · rw [hmain, dateRange_getLast _ _ _ hlo hs hdvd]
  · intro r hr hno
    have hr' : r ∈ mergeLeft (sortStart rows)
        (dateRange (minStart (sortStart rows)) (maxStart (sortStart rows)) s) := hr
    rcases mem_mergeLeft hr' with ⟨t, _, hrt, hcase⟩
    rcases hcase with h | ⟨q, hq, hqt, _⟩
    · rw [h]
      exact ⟨rfl, rfl, rfl⟩
    · exact absurd (hrt ▸ hqt) (hno q (mem_sortStart.1 hq))

/-- Witness for C3's amended theorem: observations at 0 and 60, step 60. -/
theorem resample_grid_spec_witness :
    (stationFill [⟨1, 0, some 1, none⟩, ⟨1, 60, some 2, none⟩] 60).map
        GridRow.starting =
      dateRange (minStart [⟨1, 0, some 1, none⟩, ⟨1, 60, some 2, none⟩])
        (maxStart [⟨1, 0, some 1, none⟩, ⟨1, 60, some 2, none⟩]) 60 :=
  (resample_grid_spec [⟨1, 0, some 1, none⟩, ⟨1, 60, some 2, none⟩] 60
    (by decide) (by decide) (by decide) (by decide)).1

/-! ## The `samples_per_site` pre-check (C7) -/

theorem resultDf_mem {sites : List ℕ} {cat : List Raw} {r : Raw}
    (h : r ∈ resultDf sites cat) : r ∈ negFilter cat ∧ r.siteId ∈ sites := by
  rcases List.mem_flatMap.1 h with ⟨s, hs, hr⟩
  rcases List.mem_filter.1 hr with ⟨hnf, hsid⟩
  have : r.siteId = s := by simpa using hsid
  exact ⟨hnf, this ▸ hs⟩

theorem getGroup_nil_of_not_mem {sites : List ℕ} {cat : List Raw} {g : ℕ}
    (h : g ∉ sites) : getGroup sites cat g = [] := by
  unfold getGroup
  rw [List.filter_eq_nil_iff]
  intro r hr hcon
  obtain ⟨_, hmem⟩ := resultDf_mem hr
  have : r.siteId = g := by simpa using hcon
  exact h (this ▸ hmem)

theorem getGroup_eq {sites : List ℕ} {cat : List Raw} {g : ℕ}
    (hnd : sites.Nodup) (hg : g ∈ sites) :
    getGroup sites cat g = (negFilter cat).filter (fun r => r.siteId == g) := by
  induction sites with
  | nil => cases hg
  | cons s ss ih =>
    rw [List.nodup_cons] at hnd
    obtain ⟨hns, hnd'⟩ := hnd
    have hsplit : getGroup (s :: ss) cat g =
        (siteRows (negFilter cat) s).filter (fun r => r.siteId == g) ++
          getGroup ss cat g := by
      unfold getGroup resultDf
      rw [List.flatMap_cons, List.filter_append]
    rcases List.mem_cons.1 hg with rfl | hgss
    · have htail : getGroup ss cat g = [] := getGroup_nil_of_not_mem hns
      rw [hsplit, htail, List.append_nil]
      unfold siteRows
      rw [List.filter_filter]
      apply List.filter_congr
      intro r _
      rw [Bool.and_self]
    · have hgs : g ≠ s := by
        intro hc
        exact hns (hc ▸ hgss)
      have hhead : (siteRows (negFilter cat) s).filter
          (fun r => r.siteId == g) = [] := by
        unfold siteRows
        rw [List.filter_filter, List.filter_eq_nil_iff]
        intro r _ hcon
        rw [Bool.and_eq_true] at hcon
        have h1 : r.siteId = g := by simpa using hcon.1
        have h2 : r.siteId = s := by simpa using hcon.2
        exact hgs (h1 ▸ h2 : g = s)
      rw [hsplit, hhead, List.nil_append]
      exact ih hnd' hgss

theorem mem_allGroups {sites : List ℕ} {cat : List Raw} {g : ℕ} :
    g ∈ allGroups sites cat ↔ ∃ r ∈ resultDf sites cat, r.siteId = g := by
  unfold allGroups
  rw [mem_sortKeys, List.mem_dedup, List.mem_map]

/-- C7: a site of the sites table enters `valid_sites` (and hence proceeds
to resampling) iff its number of raw rows surviving the load-time negative
filter strictly exceeds `samples_per_site`; sites at or below the
threshold are excluded before resampling. -/
theorem site_threshold_precheck (sites : List ℕ) (cat : List Raw) (spc : ℕ)
    (hnd : sites.Nodup) (g : ℕ) (hg : g ∈ sites) :
    g ∈ validSites sites cat spc ↔
      spc < ((negFilter cat).filter (fun r => r.siteId == g)).length := by
  unfold validSites
  rw [List.mem_filter]
  constructor
  · intro ⟨_, hlen⟩
    rw [decide_eq_true_eq, sortStart_length, getGroup_eq hnd hg] at hlen
    exact hlen
  · intro hcnt
    constructor
    · have hpos : 0 < ((negFilter cat).filter (fun r => r.siteId == g)).length := by
        omega
      obtain ⟨r, hr⟩ := List.exists_mem_of_ne_nil _
        (List.ne_nil_of_length_pos hpos)
      rcases List.mem_filter.1 hr with ⟨hnf, hsid⟩
      have hrg : r.siteId = g := by simpa using hsid
      refine mem_allGroups.2 ⟨r, ?_, hrg⟩
      refine List.mem_flatMap.2 ⟨g, hg, ?_⟩
      unfold siteRows
      exact List.mem_filter.2 ⟨hnf, by simpa using hrg⟩
    · rw [decide_eq_true_eq, sortStart_length, getGroup_eq hnd hg]
      exact hcnt

/-- Witness for C7: one site with two surviving rows against threshold 1. -/
theorem site_threshold_precheck_witness :
    1 ∈ validSites [1] [⟨1, 0, some 1, none⟩, ⟨1, 1, some 2, none⟩] 1 ↔
      1 < ((negFilter [⟨1, 0, some 1, none⟩, ⟨1, 1, some 2, none⟩]).filter
        (fun r => r.siteId == 1)).length :=
  site_threshold_precheck [1] [⟨1, 0, some 1, none⟩, ⟨1, 1, some 2, none⟩] 1
    (by decide) 1 (by decide)

/-! ## Non-negative PPM3 (C10) -/

theorem keepRow_iff {r : Raw} :
    keepRow r = true ↔ (r.ppm3 = none ∨ ∃ v, r.ppm3 = some v ∧ 0 ≤ v) := by
  unfold keepRow
  cases h : r.ppm3 with
  | none => simp
  | some v => simp

theorem mem_keptSeriesDaily {sites : List ℕ} {cat : List Raw} {w m spc : ℕ}
    {step : ℤ} {ts : List GridRow}
    (h : ts ∈ keptSeriesDaily sites cat w m spc step) :
    ∃ g ∈ validSites sites cat spc,
      ts = (removeUnrecoverableNansDaily (stationFill (getGroup sites cat g) step) w m).map
        (fun p => p.2) := by
  unfold keptSeriesDaily at h
  rcases List.mem_filterMap.1 h with ⟨g, hg, heq⟩
  simp only at heq
  by_cases h1 : ((removeUnrecoverableNansDaily (stationFill (getGroup sites cat g) step) w m).map
      (fun p => p.2)).isEmpty = true
  · rw [if_pos h1] at heq; cases heq
  · rw [if_neg h1] at heq
    by_cases h2 : ((removeUnrecoverableNansDaily (stationFill (getGroup sites cat g) step) w m).map
        (fun p => p.2)).length < 40
    · rw [if_pos h2] at heq; cases heq
    · rw [if_neg h2] at heq
      cases heq
      exact ⟨g, hg, rfl⟩

theorem repairSite_row_src {ts : List GridRow} {out : List CleanRow}
    (h : repairSite ts = .ok out) :
    ∀ row ∈ out, ∃ r ∈ ts, row.ppm3 = r.ppm3 := by
  unfold repairSite at h
  cases hh : (ts.filterMap (fun r => r.siteId)).head? with
  | none => rw [hh] at h; cases h
  | some sid =>
    rw [hh] at h
    cases h
    intro row hrow
    rcases List.mem_map.1 hrow with ⟨r, hr, rfl⟩
    exact ⟨r, hr, rfl⟩

theorem cleanStation_ok_blocks {sites : List ℕ} {cat : List Raw}
    {w m spc : ℕ} {step : ℤ} {rows : List CleanRow}
    (h : cleanStation sites cat w m spc step = .ok rows) :
    ∃ bs, exceptMap repairSite (keptSeries sites cat w m spc step) = .ok bs ∧
      rows = bs.flatten := by
  unfold cleanStation at h
  cases hem : exceptMap repairSite (keptSeries sites cat w m spc step) with
  | error e => rw [hem] at h; cases h
  | ok bs =>
    rw [hem] at h
    have h' : (if bs.isEmpty then (Except.error concatErr : Except String (List CleanRow))
        else Except.ok bs.flatten) = .ok rows := h
    by_cases hemp : bs.isEmpty
    · rw [if_pos hemp] at h'; cases h'
    · rw [if_neg hemp] at h'
      exact ⟨bs, rfl, (Except.ok.inj h').symm⟩

theorem cleanStationDaily_ok_blocks {sites : List ℕ} {cat : List Raw}
    {w m spc : ℕ} {step : ℤ} {rows : List CleanRow}
    (h : cleanStationDaily sites cat w m spc step = .ok (some rows)) :
    ∃ bs, exceptMap repairSite (keptSeriesDaily sites cat w m spc step) = .ok bs ∧
      rows = bs.flatten := by
  unfold cleanStationDaily at h
  cases hem : exceptMap repairSite (keptSeriesDaily sites cat w m spc step) with
  | error e => rw [hem] at h; cases h
  | ok bs =>
    rw [hem] at h
    have h' : (if bs.isEmpty then (Except.ok none : Except String (Option (List CleanRow)))
        else Except.ok (some bs.flatten)) = .ok (some rows) := h
    by_cases hemp : bs.isEmpty
    · rw [if_pos hemp] at h'
      cases Except.ok.inj h'
    · rw [if_neg hemp] at h'
      exact ⟨bs, rfl, (Option.some.inj (Except.ok.inj h')).symm⟩

theorem gridRow_ppm3_prop {sites : List ℕ} {cat : List Raw} {g : ℕ}
    {step : ℤ} {r : GridRow}
    (hr : r ∈ stationFill (getGroup sites cat g) step) :
    r.ppm3 = none ∨ ∃ v, r.ppm3 = some v ∧ 0 ≤ v := by
  rcases stationFill_ppm3_src hr with h | ⟨q, hq, hqe⟩
  · exact Or.inl h
  · have hnf : q ∈ negFilter cat := (resultDf_mem (List.mem_filter.1 hq).1).1
    have := keepRow_iff.1 (List.mem_filter.1 hnf).2
    rw [hqe]
    exact this

/-- C10: at load time the cleaning pipeline discards exactly the raw rows
with a negative (non-missing) PPM3; consequently every PPM3 value in the
output of `clean_station` — hourly or daily — is either missing or `≥ 0`. -/
theorem nonneg_ppm3_invariant :
    (∀ (cat : List Raw) (r : Raw),
        r ∈ negFilter cat ↔
          r ∈ cat ∧ (r.ppm3 = none ∨ ∃ v, r.ppm3 = some v ∧ 0 ≤ v)) ∧
    (∀ (sites : List ℕ) (cat : List Raw) (w m spc : ℕ) (step : ℤ)
        (rows : List CleanRow), cleanStation sites cat w m spc step = .ok rows →
        ∀ row ∈ rows, row.ppm3 = none ∨ ∃ v, row.ppm3 = some v ∧ 0 ≤ v) ∧
    (∀ (sites : List ℕ) (cat : List Raw) (w m spc : ℕ) (step : ℤ)
        (rows : List CleanRow),
        cleanStationDaily sites cat w m spc step = .ok (some rows) →
        ∀ row ∈ rows, row.ppm3 = none ∨ ∃ v, row.ppm3 = some v ∧ 0 ≤ v) := by
  refine ⟨?_, ?_, ?_⟩
  · intro cat r
    rw [negFilter, List.mem_filter, keepRow_iff]
  · intro sites cat w m spc step rows h row hrow
    obtain ⟨bs, hem, rfl⟩ := cleanStation_ok_blocks h
    rcases List.mem_flatten.1 hrow with ⟨blk, hblk, hrowblk⟩
    obtain ⟨ts, hts, hrep⟩ := exceptMap_ok_sources _ _ _ hem blk hblk
    obtain ⟨r, hr, hre⟩ := repairSite_row_src hrep row hrowblk
    obtain ⟨g, _, rfl, _⟩ := mem_keptSeries hts
    rcases List.mem_map.1 hr with ⟨p, hp, rfl⟩
    have hgrid : p.2 ∈ stationFill (getGroup sites cat g) step :=
      idxRows_snd_mem (mem_removeUnrecoverableNans.1 hp).1
    rw [hre]
    exact gridRow_ppm3_prop hgrid
  · intro sites cat w m spc step rows h row hrow
    obtain ⟨bs, hem, rfl⟩ := cleanStationDaily_ok_blocks h
    rcases List.mem_flatten.1 hrow with ⟨blk, hblk, hrowblk⟩
    obtain ⟨ts, hts, hrep⟩ := exceptMap_ok_sources _ _ _ hem blk hblk
    obtain ⟨r, hr, hre⟩ := repairSite_row_src hrep row hrowblk
    obtain ⟨g, _, rfl⟩ := mem_keptSeriesDaily hts
    rcases List.mem_map.1 hr with ⟨p, hp, rfl⟩
    have hgrid : p.2 ∈ stationFill (getGroup sites cat g) step :=
      idxRows_snd_mem (mem_removeUnrecoverableNans.1 (daily_subset_density hp)).1
    rw [hre]
    exact gridRow_ppm3_prop hgrid

/-- Witness for C10: a three-row site processed end to end. -/
theorem nonneg_ppm3_invariant_witness :
    ∀ row ∈ [(⟨1, 0, some 1, none⟩ : CleanRow), ⟨1, 1, some 2, none⟩,
        ⟨1, 2, some 3, none⟩],
      row.ppm3 = none ∨ ∃ v, row.ppm3 = some v ∧ 0 ≤ v :=
  nonneg_ppm3_invariant.2.1 [1]
    [⟨1, 0, some 1, none⟩, ⟨1, 1, some 2, none⟩, ⟨1, 2, some 3, none⟩]
    2 1 1 1 _ (by decide)

/-! ## Scaling and inverse scaling (C6, C8) -/

theorem handleZeros_ne_zero (s : ℚ) : handleZeros s ≠ 0 := by
  unfold handleZeros
  by_cases h : s = 0
  · rw [if_pos h]; exact one_ne_zero
  · rw [if_neg h]; exact h

theorem fitCol_scale_ne_zero (sq : ℚ → ℚ) (xs : List (Option ℚ)) :
    (fitCol sq xs).scale ≠ 0 := handleZeros_ne_zero _

theorem invVal_scaleVal (c : ScalerCol) (hc : c.scale ≠ 0) (x : ℚ) :
    invVal c (scaleVal c x) = x := by
  unfold invVal scaleVal
  field_simp

theorem map_invVal_scaleVal (c : ScalerCol) (hc : c.scale ≠ 0) (t : List ℚ) :
    (t.map (scaleVal c)).map (invVal c) = t := by
  rw [List.map_map]
  have h : ∀ x ∈ t, (invVal c ∘ scaleVal c) x = x := fun x _ => invVal_scaleVal c hc x
  calc t.map (invVal c ∘ scaleVal c) = t.map id := List.map_congr_left h
    _ = t := List.map_id t

theorem transformCol_map_some (c : ScalerCol) (t : List ℚ) :
    transformCol c (t.map some) = (t.map (scaleVal c)).map some := by
  unfold transformCol
  rw [List.map_map, List.map_map]
  rfl

/-- The last column of `scaler.inverse_transform` on `[covariates | u]` is
`u` un-scaled with the target column's scaler, whatever the covariates. -/
theorem inverseTransform_last (sq : ℚ → ℚ) (mets : List (List (Option ℚ)))
    (tcol : List (Option ℚ)) (cov : List (List ℚ)) (u : List ℚ)
    (hlen : cov.length = mets.length) :
    (inverseTransformCols (jointScalers sq mets tcol) (cov ++ [u])).getLastD [] =
      u.map (invVal (fitCol sq tcol)) := by
  unfold jointScalers inverseTransformCols
  rw [List.map_append]
  simp only [List.map_cons, List.map_nil]
  rw [List.zipWith_append _ _ _ _ _ (by rw [List.length_map, hlen])]
  simp

/-- The imputer's input matrix for a fully observed target column: the last
column is the scaled target. -/
theorem imputeMatrix_observed (sq : ℚ → ℚ) (mets : List (List (Option ℚ)))
    (times : List (List ℚ)) (t : List ℚ) :
    imputeMatrix sq mets times (t.map some) =
      (List.zipWith transformCol (mets.map (fitCol sq)) mets ++
        times.map (fun c => c.map some)) ++
      [(t.map (scaleVal (fitCol sq (t.map some)))).map some] := by
  unfold imputeMatrix jointScalers
  rw [List.map_append]
  simp only [List.map_cons, List.map_nil]
  rw [List.zipWith_append _ _ _ _ _ (by rw [List.length_map])]
  simp only [List.zipWith_cons_cons, List.zipWith_nil_right]
  rw [List.dropLast_concat, List.getLastD_concat, transformCol_map_some]

theorem forall₂_last {α β : Type} {R : α → β → Prop} {as : List α} {a : α}
    {bs : List β} (h : List.Forall₂ R (as ++ [a]) bs) :
    ∃ bs' b, bs = bs' ++ [b] ∧ R a b := by
  induction as generalizing bs with
  | nil =>
    cases h with
    | cons hR htail =>
      cases htail
      exact ⟨[], _, rfl, hR⟩
  | cons x xs ih =>
    cases h with
    | cons hR htail =>
      obtain ⟨bs', b, rfl, hab⟩ := ih htail
      exact ⟨_ :: bs', b, rfl, hab⟩

theorem forall₂_some_eq {l : List ℚ} {ys : List ℚ}
    (h : List.Forall₂ (fun (o : Option ℚ) (y : ℚ) => o = none ∨ o = some y)
      (l.map some) ys) : ys = l := by
  induction l generalizing ys with
  | nil => cases h; rfl
  | cons x xs ih =>
    cases h with
    | cons hR htail =>
      rcases hR with hno | hso
      · cases hno
      · rw [ih htail, Option.some.inj hso]

/-- C6: jointly standard-scaling the target with the meteorological columns
and then applying the implemented inverse step — the scaled target placed
as the last column of a width-`len(met_vars)+1` matrix, the scaler's
`inverse_transform` applied, the last column kept — reproduces the original
target exactly, for any values in the covariate columns of that matrix. -/
theorem inverse_scaling_last_column (sq : ℚ → ℚ)
    (mets : List (List (Option ℚ))) (t : List ℚ) (cov : List (List ℚ))
    (hlen : cov.length = mets.length) :
    (inverseTransformCols (jointScalers sq mets (t.map some))
      (cov ++ [t.map (scaleVal (fitCol sq (t.map some)))])).getLastD [] = t := by
  rw [inverseTransform_last sq mets (t.map some) cov _ hlen]
  exact map_invVal_scaleVal _ (fitCol_scale_ne_zero sq (t.map some)) t

/-- Witness for C6 with one met column, target `[2, 4]` and a non-zero
covariate column in the inverse matrix. -/
theorem inverse_scaling_last_column_witness :
    (inverseTransformCols
      (jointScalers id [[some 1, some 3]] ([2, 4].map some))
      ([[5, 6]] ++ [[2, 4].map (scaleVal (fitCol id ([2, 4].map some)))])).getLastD []
      = [2, 4] :=
  inverse_scaling_last_column id [[some 1, some 3]] [2, 4] [[5, 6]] (by decide)

/-- C8: if the target column has no missing values, the imputation engine
returns it unchanged — the imputer's contract keeps observed entries, so
the scaled target passes through `fit_transform` untouched and the inverse
scaling restores the original values exactly. -/
theorem impute_idempotent_on_observed (sq : ℚ → ℚ)
    (fill : List (List (Option ℚ)) → List (List ℚ))
    (mets : List (List (Option ℚ))) (times : List (List ℚ)) (t : List ℚ)
    (hc : FillContract fill (imputeMatrix sq mets times (t.map some))) :
    imputeWithRF sq fill mets times (t.map some) = t := by
  unfold FillContract at hc
  rw [imputeMatrix_observed] at hc
  obtain ⟨bs', b, hfill, hlastcol⟩ := forall₂_last hc
  have hb : b = t.map (scaleVal (fitCol sq (t.map some))) := forall₂_some_eq hlastcol
  unfold imputeWithRF
  rw [imputeMatrix_observed, hfill, List.getLastD_concat, hb]
  rw [inverseTransform_last sq mets (t.map some) _ _ (by rw [List.length_map])]
  exact map_invVal_scaleVal _ (fitCol_scale_ne_zero sq (t.map some)) t

/-- Witness for C8: identity-like filler on a two-row file; the contract is
discharged for a filler that replaces each entry by its observed value. -/
theorem impute_idempotent_on_observed_witness :
    imputeWithRF id (fun cols => cols.map (fun c => c.map (fun o => o.getD 0)))
      [[some 1, some 3]] [[7, 8]] ([2, 4].map some) = [2, 4] :=
  impute_idempotent_on_observed id
    (fun cols => cols.map (fun c => c.map (fun o => o.getD 0)))
    [[some 1, some 3]] [[7, 8]] [2, 4]
    (by
      unfold FillContract
      rw [List.forall₂_map_right_iff]
      refine List.forall₂_same.2 ?_
      intro c _
      rw [List.forall₂_map_right_iff]
      refine List.forall₂_same.2 ?_
      intro o _
      cases o with
      | none => exact Or.inl rfl
      | some v => exact Or.inr rfl)

/-! ## Per-file isolation of the batch (C4) -/

theorem isFailureMsg_failMsg (fn e : List Char) :
    isFailureMsg (failMsg fn e) = true := by
  unfold isFailureMsg failMsg
  have h1 : "✗ Error processing ".data = '✗' :: " Error processing ".data := rfl
  have h2 : "✗".data = ['✗'] := rfl
  rw [h1, h2, List.cons_append, List.cons_append]
  simp [List.isPrefixOf]

theorem isFailureMsg_okMsg (fn out : List Char) :
    isFailureMsg (okMsg fn out) = false := by
  unfold isFailureMsg okMsg
  have h1 : "✓ Processed ".data = '✓' :: " Processed ".data := rfl
  have h2 : "✗".data = ['✗'] := rfl
  rw [h1, h2, List.cons_append, List.cons_append]
  simp [List.isPrefixOf]

/-- C4: every per-file exception is caught at the file boundary and turned
into a failure string containing the file's identity; the batch over `N`
files yields exactly `N` per-file status strings, and when exactly one file
is defective there is exactly one failure and `N-1` successes. -/
theorem per_file_isolation (proc : List Char → Except (List Char) (List Char))
    (files : List (List Char)) (bad : List Char)
    (hcount : files.count bad = 1)
    (hbad : isErr (proc bad) = true)
    (hgood : ∀ f ∈ files, f ≠ bad → isErr (proc f) = false) :
    (runBatch proc files).length = files.length ∧
    (∀ fn e, proc fn = .error e →
       (∃ pre post, processSingleFile proc fn = pre ++ fn ++ post) ∧
       isFailureMsg (processSingleFile proc fn) = true) ∧
    (runBatch proc files).countP isFailureMsg = 1 ∧
    (runBatch proc files).countP (fun s => !(isFailureMsg s)) =
      files.length - 1 := by
  have hkey : ∀ f ∈ files, isFailureMsg (processSingleFile proc f) = (f == bad) := by
    intro f hf
    by_cases hfb : f = bad
    · subst hfb
      cases hp : proc f with
      | error e =>
        rw [beq_self_eq_true]
        unfold processSingleFile
        rw [hp]
        exact isFailureMsg_failMsg f e
      | ok out =>
        simp [isErr, hp] at hbad
    · have hne := hgood f hf hfb
      cases hp : proc f with
      | error e => simp [isErr, hp] at hne
      | ok out =>
        rw [beq_eq_false_iff_ne.mpr hfb]
        unfold processSingleFile
        rw [hp]
        exact isFailureMsg_okMsg f out
  have hfailcnt : (runBatch proc files).countP isFailureMsg = 1 := by
    unfold runBatch
    rw [List.countP_map]
    have hc : files.countP (isFailureMsg ∘ processSingleFile proc) =
        files.countP (fun f => f == bad) := by
      refine List.countP_congr ?_
      intro f hf
      rw [Function.comp_apply, hkey f hf]
    have hcp : files.count bad = files.countP (fun f => f == bad) :=
      List.count_eq_countP ..
    rw [hc, ← hcp]
    exact hcount
  have hlen : (runBatch proc files).length = files.length := by
    unfold runBatch
    rw [List.length_map]
  refine ⟨hlen, ?_, hfailcnt, ?_⟩
  · intro fn e hp
    have hps : processSingleFile proc fn = failMsg fn e := by
      unfold processSingleFile
      rw [hp]
    constructor
    · refine ⟨"✗ Error processing ".data, ": ".data ++ e, ?_⟩
      rw [hps]
      simp [failMsg, List.append_assoc]
    · rw [hps]
      exact isFailureMsg_failMsg fn e
  · have hsplit := List.length_eq_countP_add_countP isFailureMsg (runBatch proc files)
    have hc2 : (runBatch proc files).countP (fun a => decide ¬(isFailureMsg a = true)) =
        (runBatch proc files).countP (fun s => !(isFailureMsg s)) := by
      refine List.countP_congr ?_
      intro s _
      cases isFailureMsg s <;> simp
    rw [hc2] at hsplit
    omega

/-- Witness for C4: two files, the second defective. -/
theorem per_file_isolation_witness :
    (runBatch
      (fun f => if f == "b.csv".data then .error "KeyError".data
                else .ok "ok".data)
      ["a.csv".data, "b.csv".data]).countP isFailureMsg = 1 :=
  (per_file_isolation
    (fun f => if f == "b.csv".data then .error "KeyError".data
              else .ok "ok".data)
    ["a.csv".data, "b.csv".data] "b.csv".data
    (by decide) (by decide) (by decide)).2.2.1

end TDP
